import Mathlib

/-!
Verification of scranfilize (scranfilize.c): a shallow embedding of the
DIMACS CNF parser, the seeded rank generator, the flip selector and the
scramble emitter, together with theorems settling the specified claims.

The POSIX generator srand48/drand48 is modelled exactly as the 48-bit
linear congruential generator, returning values as exact rationals.
Doubles are modelled as rationals; no claim below depends on rounding.
-/

namespace Scranfilize

/-! ### Pseudo-random generator (srand48 / drand48) -/

def lcgA : Nat := 25214903917

def lcgC : Nat := 11

def lcgM : Nat := 2 ^ 48

def srand48 (seedval : Nat) : Nat := (seedval % 2 ^ 32) * 2 ^ 16 + 0x330E

def drand48step (s : Nat) : Nat := (lcgA * s + lcgC) % lcgM

def drand48 (s : Nat) : ℚ × Nat :=
  let s2 := drand48step s
  ((s2 : ℚ) / (lcgM : ℚ), s2)

def drandList : Nat → Nat → List ℚ × Nat
  | 0, s => ([], s)
  | n + 1, s =>
    let p := drand48 s
    let q := drandList n p.2
    (p.1 :: q.1, q.2)

/-! ### Rank generator (function rank, lines 330-396, and cmp_rank, lines
321-328).  The C code sorts the (src, dst) records with qsort under
cmp_rank, which orders by dst first and breaks ties by src; since the src
fields are pairwise distinct the comparator is antisymmetric, the sorted
sequence is unique, and we model the sort with insertion sort. -/

def rankLE (a b : Nat × ℚ) : Bool :=
  decide (a.2 < b.2 ∨ (a.2 = b.2 ∧ a.1 ≤ b.1))

def insertRank (x : Nat × ℚ) : List (Nat × ℚ) → List (Nat × ℚ)
  | [] => [x]
  | y :: ys => if rankLE x y then x :: y :: ys else y :: insertRank x ys

def sortRanks : List (Nat × ℚ) → List (Nat × ℚ)
  | [] => []
  | x :: xs => insertRank x (sortRanks xs)

/-- The key computed for index i from the draw u: in full-permutation mode
it is u times n, otherwise i plus u times the window width, scaled by n
unless windows are absolute (lines 339-348). -/
def rankKey (n : Nat) (permute : Bool) (width : ℚ) (absolute : Bool)
    (i : Nat) (u : ℚ) : ℚ :=
  if permute then u * n
  else
    let tmp := u * width
    let tmp := if absolute then tmp else tmp * n
    (i : ℚ) + tmp

def rankKeys (n : Nat) (permute : Bool) (width : ℚ) (absolute : Bool)
    (us : List ℚ) : List (Nat × ℚ) :=
  (List.range n).map fun i => (i, rankKey n permute width absolute i (us.getD i 0))

/-- rank: reseeds the generator from the seed (discarding the incoming
state rngIn), draws one value per index, sorts by key, and returns the
src fields in sorted order together with the outgoing generator state. -/
def rank (rngIn seedval : Nat) (n : Nat) (permute : Bool) (width : ℚ)
    (absolute : Bool) : List Nat × Nat :=
  let s0 := srand48 seedval
  let du := drandList n s0
  ((sortRanks (rankKeys n permute width absolute du.1)).map Prod.fst, du.2)

/-! ### Permutation facts about rank -/

theorem insertRank_perm (x : Nat × ℚ) (l : List (Nat × ℚ)) :
    (insertRank x l).Perm (x :: l) := by
  induction l with
  | nil => simp [insertRank]
  | cons y ys ih =>
    by_cases h : rankLE x y
    · simp [insertRank, h]
    · simp only [insertRank, h, if_neg, Bool.false_eq_true, not_false_iff, if_false]
      exact (ih.cons y).trans (List.Perm.swap x y ys)

theorem sortRanks_perm (l : List (Nat × ℚ)) : (sortRanks l).Perm l := by
  induction l with
  | nil => simp [sortRanks]
  | cons x xs ih => exact (insertRank_perm x (sortRanks xs)).trans (ih.cons x)

theorem rankKeys_map_fst (n : Nat) (permute : Bool) (width : ℚ)
    (absolute : Bool) (us : List ℚ) :
    (rankKeys n permute width absolute us).map Prod.fst = List.range n := by
  simp [rankKeys, List.map_map, Function.comp_def]

theorem rank_perm (rngIn seedval n : Nat) (permute : Bool) (width : ℚ)
    (absolute : Bool) :
    ((rank rngIn seedval n permute width absolute).1).Perm (List.range n) := by
  have h := (sortRanks_perm (rankKeys n permute width absolute
    (drandList n (srand48 seedval)).1)).map Prod.fst
  rw [rankKeys_map_fst] at h
  exact h

theorem count_range (v n : Nat) :
    (List.range n).count v = if v < n then 1 else 0 := by
  by_cases h : v < n
  · rw [if_pos h]
    exact List.count_eq_one_of_mem (List.nodup_range n) (List.mem_range.mpr h)
  · rw [if_neg h]
    exact List.count_eq_zero_of_not_mem fun hm => h (List.mem_range.mp hm)

/-- C2: for every n, every seed, and both modes with any window width, the
rank generator returns a list of length n that is a permutation of the
range 0..n-1: every value below n appears exactly once. -/
theorem claim_C2 (rngIn seedval n : Nat) (permute : Bool) (width : ℚ)
    (absolute : Bool) :
    (rank rngIn seedval n permute width absolute).1.length = n ∧
    (rank rngIn seedval n permute width absolute).1.Perm (List.range n) ∧
    ∀ v, (rank rngIn seedval n permute width absolute).1.count v
      = if v < n then 1 else 0 := by
  have hp := rank_perm rngIn seedval n permute width absolute
  refine ⟨?_, hp, fun v => ?_⟩
  · rw [hp.length_eq, List.length_range]
  · rw [hp.count_eq, count_range]

/-! ### Width zero yields the identity permutation -/

theorem insertRank_cons_of_le (x y : Nat × ℚ) (ys : List (Nat × ℚ))
    (h : rankLE x y = true) : insertRank x (y :: ys) = x :: y :: ys := by
  simp [insertRank, h]

theorem sortRanks_eq_self (l : List (Nat × ℚ))
    (h : l.Pairwise fun a b => rankLE a b = true) : sortRanks l = l := by
  induction l with
  | nil => rfl
  | cons x xs ih =>
    rcases List.pairwise_cons.mp h with ⟨hx, hxs⟩
    rw [sortRanks, ih hxs]
    cases xs with
    | nil => rfl
    | cons y ys => exact insertRank_cons_of_le x y ys (hx y (List.mem_cons_self y ys))

theorem rankKey_width_zero (n : Nat) (absolute : Bool) (i : Nat) (u : ℚ) :
    rankKey n false 0 absolute i u = (i : ℚ) := by
  cases absolute <;> simp [rankKey]

theorem rank_width_zero (rngIn seedval n : Nat) (absolute : Bool) :
    (rank rngIn seedval n false 0 absolute).1 = List.range n := by
  have hkeys : rankKeys n false 0 absolute (drandList n (srand48 seedval)).1
      = (List.range n).map fun i => ((i, (i : ℚ)) : Nat × ℚ) := by
    unfold rankKeys
    exact List.map_congr_left fun i _ => by rw [rankKey_width_zero]
  have hpair : ((List.range n).map fun i => ((i, (i : ℚ)) : Nat × ℚ)).Pairwise
      fun a b => rankLE a b = true := by
    refine (List.pairwise_map).mpr (List.Pairwise.imp ?_ (List.pairwise_lt_range n))
    intro a b hab
    simp only [rankLE, decide_eq_true_eq]
    exact Or.inl (by exact_mod_cast hab)
  show (sortRanks (rankKeys n false 0 absolute
      (drandList n (srand48 seedval)).1)).map Prod.fst = List.range n
  rw [hkeys, sortRanks_eq_self _ hpair, List.map_map]
  simp [Function.comp_def]

/-! ### Flip selector (function flip, lines 400-418): reseeds from the
seed, then returns all false when the probability is at most 0, all true
when it is at least 1 (both via memset, consuming no draws), and otherwise
reseeds again and draws one value per variable, marking the variable
exactly when the draw is at most the probability. -/

def flip (rngIn seedval maxVar : Nat) (p : ℚ) : List Bool × Nat :=
  let s0 := srand48 seedval
  if p ≤ 0 then (List.replicate maxVar false, s0)
  else if 1 ≤ p then (List.replicate maxVar true, s0)
  else
    let s1 := srand48 seedval
    let du := drandList maxVar s1
    (du.1.map fun u => decide (u ≤ p), du.2)

/-- C6: the flip selector yields all false for probability at most 0 and
all true for probability at least 1, deterministically, with the outgoing
generator state the freshly reseeded one (no draws consumed) and the
result independent of the incoming generator state; for probabilities
strictly between 0 and 1 it draws one value per variable and marks entry
i exactly when that draw is at most the probability. -/
theorem claim_C6 (rngIn rngIn2 seedval maxVar : Nat) (p : ℚ) :
    (p ≤ 0 → flip rngIn seedval maxVar p
      = (List.replicate maxVar false, srand48 seedval)) ∧
    (1 ≤ p → flip rngIn seedval maxVar p
      = (List.replicate maxVar true, srand48 seedval)) ∧
    flip rngIn seedval maxVar p = flip rngIn2 seedval maxVar p ∧
    (0 < p → p < 1 → flip rngIn seedval maxVar p
      = ((drandList maxVar (srand48 seedval)).1.map fun u => decide (u ≤ p),
         (drandList maxVar (srand48 seedval)).2)) := by
  refine ⟨fun h0 => ?_, fun h1 => ?_, rfl, fun hl hu => ?_⟩
  · simp [flip, h0]
  · have : ¬ p ≤ 0 := by linarith
    simp [flip, this, h1]
  · have h0 : ¬ p ≤ 0 := by linarith
    have h1 : ¬ 1 ≤ p := by linarith
    simp [flip, h0, h1]

/-- C6 witness at concrete inputs: probability 0, probability 1 and
probability one half with two variables and seed 0. -/
theorem claim_C6_witness :
    flip 0 0 2 0 = (List.replicate 2 false, srand48 0) ∧
    flip 0 0 2 1 = (List.replicate 2 true, srand48 0) ∧
    flip 0 0 2 (1/2)
      = ((drandList 2 (srand48 0)).1.map fun u => decide (u ≤ (1/2 : ℚ)),
         (drandList 2 (srand48 0)).2) :=
  ⟨(claim_C6 0 0 0 2 0).1 le_rfl,
   (claim_C6 0 0 0 2 1).2.1 le_rfl,
   (claim_C6 0 0 0 2 (1/2)).2.2.2 (by norm_num) (by norm_num)⟩

/-! ### CNF data model and the scramble emitter (function print,
lines 469-514). -/

structure CNF where
  maxVar : Nat
  clauses : List (List Int)
deriving DecidableEq

/-- Every stored literal is nonzero with magnitude at most maxVar; the
parser establishes this for every CNF it produces. -/
def WellFormed (cnf : CNF) : Prop :=
  ∀ c ∈ cnf.clauses, ∀ l ∈ c, l ≠ 0 ∧ l.natAbs ≤ cnf.maxVar

instance (cnf : CNF) : Decidable (WellFormed cnf) := by
  unfold WellFormed; infer_instance

/-- The literal transformation of the emitter (lines 499-507): take the
magnitude, reverse it if requested, look up the variable map, restore the
original sign, then negate again if the possibly-reversed variable is in
the flip set. -/
def emitLit (maxVar : Nat) (vm : List Nat) (fl : List Bool) (revVars : Bool)
    (src : Int) : Int :=
  let idx0 := src.natAbs
  let idx := if revVars then maxVar + 1 - idx0 else idx0
  let dst : Int := (vm.getD (idx - 1) 0 : Int) + 1
  let dst := if src < 0 then -dst else dst
  if fl.getD (idx - 1) false then -dst else dst

def emitClause (maxVar : Nat) (vm : List Nat) (fl : List Bool)
    (revVars : Bool) (c : List Int) : List Int :=
  c.map (emitLit maxVar vm fl revVars)

/-- The source clause index chosen for output position i (lines 495-496):
the clause map entry, replaced by numClauses - 1 - entry when clause
reversal is requested. -/
def srcIndex (numClauses : Nat) (cm : List Nat) (revClauses : Bool)
    (i : Nat) : Nat :=
  let j := cm.getD i 0
  if revClauses then numClauses - 1 - j else j

def emit (cnf : CNF) (vm cm : List Nat) (fl : List Bool)
    (revVars revClauses : Bool) : List (List Int) :=
  (List.range cnf.clauses.length).map fun i =>
    emitClause cnf.maxVar vm fl revVars
      (cnf.clauses.getD (srcIndex cnf.clauses.length cm revClauses i) [])

/-- One output clause line: each literal followed by a space, then the
terminating zero and a newline, as printed by lines 507-509. -/
def renderClause (c : List Int) : String :=
  String.join (c.map fun l => toString l ++ " ") ++ "0\n"

structure Opts where
  seedval : Nat
  permuteVariables : Bool
  permuteClauses : Bool
  reverseVariables : Bool
  reverseClauses : Bool
  literalFlipProbability : ℚ
  variableMoveWindow : ℚ
  clauseMoveWindow : ℚ
  absoluteWindows : Bool

/-- scramble (lines 422-426): the variable rank, the clause rank and the
flip set, computed in order with the generator state threaded through;
each callee reseeds from the seed on entry. -/
def scramble (cnf : CNF) (o : Opts) (rngIn : Nat) :
    List Nat × List Nat × List Bool :=
  let r1 := rank rngIn o.seedval cnf.maxVar o.permuteVariables
    o.variableMoveWindow o.absoluteWindows
  let r2 := rank r1.2 o.seedval cnf.clauses.length o.permuteClauses
    o.clauseMoveWindow o.absoluteWindows
  let r3 := flip r2.2 o.seedval cnf.maxVar o.literalFlipProbability
  (r1.1, r2.1, r3.1)

/-- The emitted stream after the banner: the header line followed by the
scrambled clause lines (lines 493-510). -/
def printCNF (cnf : CNF) (o : Opts) (rngIn : Nat) : String :=
  let m := scramble cnf o rngIn
  "p cnf " ++ toString cnf.maxVar ++ " " ++ toString cnf.clauses.length
    ++ "\n"
    ++ String.join ((emit cnf m.1 m.2.1 m.2.2 o.reverseVariables
      o.reverseClauses).map renderClause)

/-- C7: the three maps, and hence the whole output stream, are functions
of the seed and their own parameters alone, independent of the incoming
generator state: two runs with identical input, options and seed produce
byte-identical output. -/
theorem claim_C7 (cnf : CNF) (o : Opts) (rngIn1 rngIn2 : Nat) :
    (∀ n permute width absolute,
      rank rngIn1 o.seedval n permute width absolute
        = rank rngIn2 o.seedval n permute width absolute) ∧
    (∀ maxVar p, flip rngIn1 o.seedval maxVar p
        = flip rngIn2 o.seedval maxVar p) ∧
    scramble cnf o rngIn1 = scramble cnf o rngIn2 ∧
    printCNF cnf o rngIn1 = printCNF cnf o rngIn2 :=
  ⟨fun _ _ _ _ => rfl, fun _ _ => rfl, rfl, rfl⟩

/-! ### Claim C4: the exact literal and clause selection formulas -/

/-- Modelled from the words of the claim for comparison with emitLit: the
emitted magnitude is the variable map entry plus one at the possibly
reversed index, and the emitted sign is the original sign xor the flip
decision at the possibly reversed index. -/
def specLit (maxVar : Nat) (vm : List Nat) (fl : List Bool) (revVars : Bool)
    (src : Int) : Int :=
  let idx := if revVars then maxVar + 1 - src.natAbs else src.natAbs
  let mag : Int := (vm.getD (idx - 1) 0 : Int) + 1
  if Bool.xor (decide (src < 0)) (fl.getD (idx - 1) false) then -mag else mag

theorem emitLit_eq_specLit (maxVar : Nat) (vm : List Nat) (fl : List Bool)
    (revVars : Bool) (src : Int) :
    emitLit maxVar vm fl revVars src = specLit maxVar vm fl revVars src := by
  simp only [emitLit, specLit]
  by_cases hs : src < 0 <;>
    cases hb : fl.getD
      ((if revVars then maxVar + 1 - src.natAbs else src.natAbs) - 1) false <;>
    simp [hs, hb]

theorem emit_getD (cnf : CNF) (vm cm : List Nat) (fl : List Bool)
    (revVars revClauses : Bool) (i : Nat) (hi : i < cnf.clauses.length) :
    (emit cnf vm cm fl revVars revClauses).getD i []
      = emitClause cnf.maxVar vm fl revVars
          (cnf.clauses.getD (srcIndex cnf.clauses.length cm revClauses i) []) := by
  unfold emit
  rw [List.getD_eq_getElem _ _ (by simpa using hi)]
  simp

/-- C4: for every output position i, the emitter selects the source clause
cm i, replaced by numClauses - 1 - cm i when clause reversal is on
(reversal composed after the permutation lookup), and maps each of its
literals to a literal whose magnitude is the variable map entry plus one
at the possibly reversed index and whose sign is the original sign xor
the flip decision at that same possibly reversed index. -/
theorem claim_C4 (cnf : CNF) (vm cm : List Nat) (fl : List Bool)
    (revVars revClauses : Bool) (i : Nat) (hi : i < cnf.clauses.length) :
    (emit cnf vm cm fl revVars revClauses).getD i []
      = (cnf.clauses.getD
          (if revClauses then cnf.clauses.length - 1 - cm.getD i 0
           else cm.getD i 0) []).map
          (specLit cnf.maxVar vm fl revVars) := by
  rw [emit_getD cnf vm cm fl revVars revClauses i hi]
  unfold emitClause srcIndex
  exact List.map_congr_left fun l _ => emitLit_eq_specLit _ _ _ _ _

/-- C4 witness: a concrete two-clause CNF with both reversals on. -/
theorem claim_C4_witness :
    (emit ⟨2, [[1, -2], [2]]⟩ [1, 0] [1, 0] [false, true] true true).getD 0 []
      = (([[1, -2], [2]] : List (List Int)).getD
          (if true then 2 - 1 - ([1, 0].getD 0 0) else [1, 0].getD 0 0) []).map
          (specLit 2 [1, 0] [false, true] true) :=
  claim_C4 ⟨2, [[1, -2], [2]]⟩ [1, 0] [1, 0] [false, true] true true 0
    (by decide)

/-! ### DIMACS parser (function parse, lines 155-315), embedded at the
character level.  End of file is modelled by the option lookahead being
none.  The clause loop carries fuel bounded by the stream length; fuel
exhaustion is a distinguished error that never occurs for the inputs
considered, and all safety statements are conditional on success. -/

def isSpaceChar (c : Char) : Bool :=
  c = ' ' || c = '\t' || c = '\r' || c = '\n'

def isDigitChar (c : Char) : Bool := '0' ≤ c && c ≤ '9'

def isPrintChar (c : Char) : Bool := 32 ≤ c.toNat && c.toNat ≤ 126

def digitVal (c : Char) : Nat := c.toNat - 48

def INTMAX : Nat := 2147483647

inductive PErr where
  | eofBeforeHeader
  | eofInHeaderComment
  | unexpectedChar (c : Char)
  | unexpectedCharCode (n : Nat)
  | invalidHeader
  | expectedDigitMaxVar
  | varNumberWayTooLarge
  | varNumberTooLarge
  | expectedSpaceAfterVariableNumber
  | expectedDigitNumClauses
  | clauseNumberWayTooLarge
  | clauseNumberTooLarge
  | expectedWhiteSpace
  | expectedDigitAfterMinus
  | expectedNonzeroDigitAfterMinus
  | expectedDigitOrMinus
  | varWayTooLarge
  | varTooLarge
  | maxVarExceeded
  | unexpectedCharAfterLit (c : Char)
  | unexpectedCharCodeAfterLit (n : Nat)
  | tooManyClauses
  | terminatingZeroMissing
  | clausesMissing (reported : Nat) (plural : Bool)
  | outOfFuel
deriving DecidableEq

/-- The digit accumulation loops (lines 212-218, 226-234 and 274-282):
keep consuming digits, failing on overflow past INT_MAX exactly as the C
code checks, and return the accumulated value together with the first
non-digit lookahead and the remaining stream. -/
def readDigits (wayErr tooErr : PErr) :
    Nat → List Char → Except PErr (Nat × Option Char × List Char)
  | acc, [] => .ok (acc, none, [])
  | acc, c :: r =>
    if isDigitChar c then
      if INTMAX / 10 < acc then .error wayErr
      else
        let acc2 := acc * 10
        if INTMAX - digitVal c < acc2 then .error tooErr
        else readDigits wayErr tooErr (acc2 + digitVal c) r
    else .ok (acc, some c, r)

/-- Comment skipping before the header (lines 190-195): end of file inside
the comment is an error. -/
def skipHeaderComment : List Char → Except PErr (List Char)
  | [] => .error .eofInHeaderComment
  | c :: r => if c = '\n' then .ok r else skipHeaderComment r

/-- The loop looking for the header line (lines 186-199). -/
def findHeader : Nat → List Char → Except PErr (List Char)
  | 0, _ => .error .outOfFuel
  | _ + 1, [] => .error .eofBeforeHeader
  | fuel + 1, c :: r =>
    if c = 'p' then .ok r
    else if c = 'c' then
      match skipHeaderComment r with
      | .error e => .error e
      | .ok r2 => findHeader fuel r2
    else if isPrintChar c then .error (.unexpectedChar c)
    else .error (.unexpectedCharCode c.toNat)

/-- The whitespace run ending the header line (lines 238-241). -/
def skipToEOL : Option Char → List Char → Except PErr (List Char)
  | none, _ => .error .expectedWhiteSpace
  | some c, r =>
    if c = '\n' then .ok r
    else if ¬ isSpaceChar c then .error .expectedWhiteSpace
    else
      match r with
      | [] => .error .expectedWhiteSpace
      | c2 :: r2 => skipToEOL (some c2) r2

/-- Comment skipping inside the clause section (lines 258-260): stops at a
newline or end of file and hands that character back as the lookahead. -/
def skipClauseComment : List Char → Option Char × List Char
  | [] => (none, [])
  | c :: r => if c = '\n' then (some '\n', r) else skipClauseComment r

/-- How a parsed token extends the clause state (lines 291-308): a nonzero
literal is appended to the pending literals; the terminating zero closes
the pending literals into a stored clause, never storing the zero. -/
def applyLit (pending : List Int) (cls : List (List Int)) (lit : Int) :
    List Int × List (List Int) :=
  if lit = 0 then ([], cls ++ [pending]) else (pending ++ [lit], cls)

/-- Parsing one integer token after its sign and first digit are known
(lines 272-291): read the remaining digits, check the maximum variable
index, check the delimiter, check the clause count, and deliver the
signed literal with the lookahead. -/
def readLit (maxVar specified numRead : Nat) (sign : Int) (first : Char)
    (r : List Char) : Except PErr (Int × Option Char × List Char) :=
  match readDigits .varWayTooLarge .varTooLarge (digitVal first) r with
  | .error e => .error e
  | .ok (idx, ch2, r2) =>
    if maxVar < idx then .error .maxVarExceeded
    else
      match ch2 with
      | some c2 =>
        if isSpaceChar c2 || c2 = 'c' then
          if numRead = specified then .error .tooManyClauses
          else .ok (sign * (idx : Int), some c2, r2)
        else if isPrintChar c2 then .error (.unexpectedCharAfterLit c2)
        else .error (.unexpectedCharCodeAfterLit c2.toNat)
      | none =>
        if numRead = specified then .error .tooManyClauses
        else .ok (sign * (idx : Int), none, r2)

/-- One iteration of the clause reading loop (lines 249-310): either a
hard error, or a continuation state (lookahead, stream, pending literals,
stored clauses), or the final clause list at a valid end of file. -/
def parseStep (maxVar specified : Nat) (ch : Option Char) (r : List Char)
    (pending : List Int) (cls : List (List Int)) :
    Except PErr
      (Sum (Option Char × List Char × List Int × List (List Int))
        (List (List Int))) :=
  match ch with
  | none =>
    if pending.length ≠ 0 then .error .terminatingZeroMissing
    else if cls.length < specified then
      .error (.clausesMissing cls.length (decide (cls.length + 1 ≠ specified)))
    else .ok (.inr cls)
  | some c =>
    if isSpaceChar c then
      match r with
      | [] => .ok (.inl (none, [], pending, cls))
      | c2 :: r2 => .ok (.inl (some c2, r2, pending, cls))
    else if c = 'c' then
      let s := skipClauseComment r
      .ok (.inl (s.1, s.2, pending, cls))
    else if c = '-' then
      match r with
      | [] => .error .expectedDigitAfterMinus
      | d :: r2 =>
        if ¬ isDigitChar d then .error .expectedDigitAfterMinus
        else if d = '0' then .error .expectedNonzeroDigitAfterMinus
        else
          match readLit maxVar specified cls.length (-1) d r2 with
          | .error e => .error e
          | .ok (lit, ch2, r3) =>
            let pc := applyLit pending cls lit
            .ok (.inl (ch2, r3, pc.1, pc.2))
    else if ¬ isDigitChar c then .error .expectedDigitOrMinus
    else
      match readLit maxVar specified cls.length 1 c r with
      | .error e => .error e
      | .ok (lit, ch2, r3) =>
        let pc := applyLit pending cls lit
        .ok (.inl (ch2, r3, pc.1, pc.2))

/-- The clause reading loop (lines 248-310), iterating parseStep with
fuel bounded by the stream length. -/
def parseLoop (maxVar specified : Nat) :
    Nat → Option Char → List Char → List Int → List (List Int) →
    Except PErr (List (List Int))
  | 0, _, _, _, _ => .error .outOfFuel
  | fuel + 1, ch, r, pending, cls =>
    match parseStep maxVar specified ch r pending cls with
    | .error e => .error e
    | .ok (.inr res) => .ok res
    | .ok (.inl s) =>
      parseLoop maxVar specified fuel s.1 s.2.1 s.2.2.1 s.2.2.2

def nextc : List Char → Option Char × List Char
  | [] => (none, [])
  | c :: r => (some c, r)

/-- The header part of the parser (lines 186-241): find the header line,
read the two header numbers and consume the rest of the header line,
returning the maximum variable, the declared clause count and the
remaining stream. -/
def parseHeader (cs : List Char) : Except PErr (Nat × Nat × List Char) :=
  match findHeader (cs.length + 1) cs with
  | .error e => .error e
  | .ok r1 =>
    match r1 with
    | ' ' :: 'c' :: 'n' :: 'f' :: ' ' :: r2 =>
      match r2 with
      | [] => .error .expectedDigitMaxVar
      | c :: r3 =>
        if ¬ isDigitChar c then .error .expectedDigitMaxVar
        else
          match readDigits .varNumberWayTooLarge .varNumberTooLarge
              (digitVal c) r3 with
          | .error e => .error e
          | .ok (maxVar, ch1, r4) =>
            if ch1 ≠ some ' ' then .error .expectedSpaceAfterVariableNumber
            else
              match r4 with
              | [] => .error .expectedDigitNumClauses
              | c2 :: r5 =>
                if ¬ isDigitChar c2 then .error .expectedDigitNumClauses
                else
                  match readDigits .clauseNumberWayTooLarge
                      .clauseNumberTooLarge (digitVal c2) r5 with
                  | .error e => .error e
                  | .ok (specified, ch2, r6) =>
                    match skipToEOL ch2 r6 with
                    | .error e => .error e
                    | .ok r7 => .ok (maxVar, specified, r7)
    | _ => .error .invalidHeader

/-- The whole parser (function parse): parse the header, then run the
clause loop on the remaining stream (lines 243-315). -/
def parse (s : String) : Except PErr CNF :=
  match parseHeader s.toList with
  | .error e => .error e
  | .ok (maxVar, specified, r7) =>
    match parseLoop maxVar specified (r7.length + 2) (nextc r7).1
        (nextc r7).2 [] [] with
    | .error e => .error e
    | .ok cls => .ok ⟨maxVar, cls⟩

/-! ### Well-formedness of every parsed CNF -/

theorem readLit_shape (maxVar specified numRead : Nat) (sign : Int)
    (first : Char) (r : List Char) (lit : Int) (ch2 : Option Char)
    (r2 : List Char)
    (h : readLit maxVar specified numRead sign first r = .ok (lit, ch2, r2)) :
    ∃ idx : Nat, idx ≤ maxVar ∧ lit = sign * (idx : Int) := by
  unfold readLit at h
  split at h
  · exact absurd h (by simp)
  · rename_i idx ch r3 heq
    split at h
    · exact absurd h (by simp)
    · rename_i hle
      split at h
      · split at h
        · split at h
          · exact absurd h (by simp)
          · simp only [Except.ok.injEq, Prod.mk.injEq] at h
            exact ⟨idx, by omega, h.1.symm⟩
        · split at h
          · exact absurd h (by simp)
          · exact absurd h (by simp)
      · split at h
        · exact absurd h (by simp)
        · simp only [Except.ok.injEq, Prod.mk.injEq] at h
          exact ⟨idx, by omega, h.1.symm⟩

theorem applyLit_inv (maxVar : Nat) (pending : List Int)
    (cls : List (List Int)) (lit : Int) (hl : lit.natAbs ≤ maxVar)
    (hp : ∀ l ∈ pending, l ≠ 0 ∧ l.natAbs ≤ maxVar)
    (hc : ∀ c ∈ cls, ∀ l ∈ c, l ≠ 0 ∧ l.natAbs ≤ maxVar) :
    (∀ l ∈ (applyLit pending cls lit).1, l ≠ 0 ∧ l.natAbs ≤ maxVar) ∧
    (∀ c ∈ (applyLit pending cls lit).2, ∀ l ∈ c,
      l ≠ 0 ∧ l.natAbs ≤ maxVar) := by
  unfold applyLit
  by_cases h0 : lit = 0
  · refine ⟨by simp [h0], fun c hcm => ?_⟩
    rw [if_pos h0] at hcm
    rcases List.mem_append.mp hcm with hcm | hcm
    · exact hc c hcm
    · rw [List.mem_singleton.mp hcm]; exact hp
  · refine ⟨fun l hlm => ?_, by simp [h0]; exact hc⟩
    rw [if_neg h0] at hlm
    rcases List.mem_append.mp hlm with hlm | hlm
    · exact hp l hlm
    · rw [List.mem_singleton.mp hlm]; exact ⟨h0, hl⟩

theorem parseLoop_zero (maxVar specified : Nat) (ch : Option Char)
    (r : List Char) (pending : List Int) (cls : List (List Int)) :
    parseLoop maxVar specified 0 ch r pending cls = .error .outOfFuel := rfl

theorem parseLoop_succ (maxVar specified n : Nat) (ch : Option Char)
    (r : List Char) (pending : List Int) (cls : List (List Int)) :
    parseLoop maxVar specified (n + 1) ch r pending cls
      = match parseStep maxVar specified ch r pending cls with
        | .error e => .error e
        | .ok (.inr res) => .ok res
        | .ok (.inl s) =>
          parseLoop maxVar specified n s.1 s.2.1 s.2.2.1 s.2.2.2 := rfl

theorem parseStep_inl (maxVar specified : Nat) (ch : Option Char)
    (r : List Char) (pending : List Int) (cls : List (List Int))
    (s : Option Char × List Char × List Int × List (List Int))
    (h : parseStep maxVar specified ch r pending cls = .ok (.inl s))
    (hp : ∀ l ∈ pending, l ≠ 0 ∧ l.natAbs ≤ maxVar)
    (hc : ∀ c ∈ cls, ∀ l ∈ c, l ≠ 0 ∧ l.natAbs ≤ maxVar) :
    (∀ l ∈ s.2.2.1, l ≠ 0 ∧ l.natAbs ≤ maxVar) ∧
    (∀ c ∈ s.2.2.2, ∀ l ∈ c, l ≠ 0 ∧ l.natAbs ≤ maxVar) := by
  unfold parseStep at h
  split at h
  · -- end of file branch never continues
    split at h
    · exact absurd h (by simp)
    · split at h
      · exact absurd h (by simp)
      · exact absurd h (by simp)
  · split at h
    · -- space branch keeps the state
      split at h <;>
        (simp only [Except.ok.injEq, Sum.inl.injEq] at h; subst h;
         exact ⟨hp, hc⟩)
    · split at h
      · -- comment branch keeps the state
        simp only [Except.ok.injEq, Sum.inl.injEq] at h
        subst h
        exact ⟨hp, hc⟩
      · split at h
        · -- negative literal
          split at h
          · exact absurd h (by simp)
          · split at h
            · exact absurd h (by simp)
            · split at h
              · exact absurd h (by simp)
              · split at h
                · exact absurd h (by simp)
                · rename_i lit ch2 r3 heq
                  obtain ⟨idx, hle, rfl⟩ :=
                    readLit_shape _ _ _ _ _ _ _ _ _ heq
                  simp only [Except.ok.injEq, Sum.inl.injEq] at h
                  subst h
                  exact applyLit_inv maxVar pending cls _ (by omega) hp hc
        · split at h
          · exact absurd h (by simp)
          · -- positive literal
            split at h
            · exact absurd h (by simp)
            · rename_i lit ch2 r3 heq
              obtain ⟨idx, hle, rfl⟩ :=
                readLit_shape _ _ _ _ _ _ _ _ _ heq
              simp only [Except.ok.injEq, Sum.inl.injEq] at h
              subst h
              exact applyLit_inv maxVar pending cls _ (by omega) hp hc

theorem parseStep_inr (maxVar specified : Nat) (ch : Option Char)
    (r : List Char) (pending : List Int) (cls : List (List Int))
    (res : List (List Int))
    (h : parseStep maxVar specified ch r pending cls = .ok (.inr res))
    (hc : ∀ c ∈ cls, ∀ l ∈ c, l ≠ 0 ∧ l.natAbs ≤ maxVar) :
    ∀ c ∈ res, ∀ l ∈ c, l ≠ 0 ∧ l.natAbs ≤ maxVar := by
  unfold parseStep at h
  split at h
  · split at h
    · exact absurd h (by simp)
    · split at h
      · exact absurd h (by simp)
      · simp only [Except.ok.injEq, Sum.inr.injEq] at h
        subst h
        exact hc
  · split at h
    · split at h <;> exact absurd h (by simp)
    · split at h
      · exact absurd h (by simp)
      · split at h
        · split at h
          · exact absurd h (by simp)
          · split at h
            · exact absurd h (by simp)
            · split at h
              · exact absurd h (by simp)
              · split at h
                · exact absurd h (by simp)
                · exact absurd h (by simp)
        · split at h
          · exact absurd h (by simp)
          · split at h
            · exact absurd h (by simp)
            · exact absurd h (by simp)

theorem parseLoop_wf (maxVar specified : Nat) :
    ∀ fuel (ch : Option Char) (r : List Char) (pending : List Int)
      (cls res : List (List Int)),
      parseLoop maxVar specified fuel ch r pending cls = .ok res →
      (∀ l ∈ pending, l ≠ 0 ∧ l.natAbs ≤ maxVar) →
      (∀ c ∈ cls, ∀ l ∈ c, l ≠ 0 ∧ l.natAbs ≤ maxVar) →
      ∀ c ∈ res, ∀ l ∈ c, l ≠ 0 ∧ l.natAbs ≤ maxVar := by
  intro fuel
  induction fuel with
  | zero =>
    intro ch r pending cls res h
    rw [parseLoop_zero] at h
    exact absurd h (by simp)
  | succ n ih =>
    intro ch r pending cls res h hp hc
    rw [parseLoop_succ] at h
    split at h
    · exact absurd h (by simp)
    · rename_i res2 heq
      injection h with h2
      subst h2
      exact parseStep_inr _ _ _ _ _ _ _ heq hc
    · rename_i s heq
      have hinv := parseStep_inl _ _ _ _ _ _ _ heq hp hc
      exact ih _ _ _ _ _ h hinv.1 hinv.2

theorem parse_wf (s : String) (cnf : CNF) (h : parse s = .ok cnf) :
    WellFormed cnf := by
  unfold parse at h
  rcases hh : parseHeader s.toList with e | ⟨mv, sp, r7⟩
  · rw [hh] at h
    exact absurd h (by simp)
  · rw [hh] at h
    dsimp only at h
    rcases hl : parseLoop mv sp (r7.length + 2) (nextc r7).1 (nextc r7).2
        [] [] with e | cls
    · rw [hl] at h
      exact absurd h (by simp)
    · rw [hl] at h
      injection h with h2
      subst h2
      intro c hcm l hlm
      exact parseLoop_wf mv sp (r7.length + 2) (nextc r7).1
        (nextc r7).2 [] [] cls hl (by simp) (by simp) c hcm l hlm

/-! ### Inverting the emitter literal transformation -/

/-- Undo of the emitter literal transformation: recover the
possibly-reversed index by inverting the variable permutation on the
output magnitude, undo the flip and the original-sign negation, and undo
the variable reversal. -/
def unEmitLit (maxVar : Nat) (vm : List Nat) (fl : List Bool) (revVars : Bool)
    (dst : Int) : Int :=
  let i := vm.indexOf (dst.natAbs - 1)
  let idx0 := if revVars then maxVar + 1 - (i + 1) else i + 1
  if Bool.xor (decide (dst < 0)) (fl.getD i false) then -(idx0 : Int)
  else (idx0 : Int)

def unscrambleClause (maxVar : Nat) (vm : List Nat) (fl : List Bool)
    (revVars : Bool) (c : List Int) : List Int :=
  c.map (unEmitLit maxVar vm fl revVars)

theorem indexOf_getElem_of_nodup (l : List Nat) (k : Nat) (hk : k < l.length)
    (hnd : l.Nodup) : l.indexOf l[k] = k := by
  induction l generalizing k with
  | nil => simp at hk
  | cons x xs ih =>
    cases k with
    | zero => simp [List.indexOf_cons_self]
    | succ k2 =>
      have hk2 : k2 < xs.length := by simpa using hk
      have hx : x ∉ xs := (List.nodup_cons.mp hnd).1
      have hne : x ≠ xs[k2] := fun he => hx (he ▸ List.getElem_mem hk2)
      rw [List.getElem_cons_succ, List.indexOf_cons_ne _ hne,
        ih k2 hk2 (List.nodup_cons.mp hnd).2]

theorem indexOf_getD_of_nodup (l : List Nat) (k : Nat) (hk : k < l.length)
    (hnd : l.Nodup) : l.indexOf (l.getD k 0) = k := by
  rw [List.getD_eq_getElem _ _ hk]
  exact indexOf_getElem_of_nodup l k hk hnd

theorem unEmitLit_emitLit (maxVar : Nat) (vm : List Nat) (fl : List Bool)
    (rv : Bool) (src : Int) (hvm : vm.Perm (List.range maxVar))
    (h0 : src ≠ 0) (hb : src.natAbs ≤ maxVar) :
    unEmitLit maxVar vm fl rv (emitLit maxVar vm fl rv src) = src := by
  have hlen : vm.length = maxVar := by rw [hvm.length_eq, List.length_range]
  have hnd : vm.Nodup := hvm.nodup_iff.mpr (List.nodup_range maxVar)
  have h1 : 1 ≤ src.natAbs := Int.natAbs_pos.mpr h0
  rw [emitLit_eq_specLit]
  cases rv with
  | false =>
    simp only [specLit, unEmitLit, Bool.false_eq_true, if_false]
    have hk : src.natAbs - 1 < vm.length := by omega
    have hvlt : vm.getD (src.natAbs - 1) 0 < maxVar := by
      rw [List.getD_eq_getElem _ _ hk]
      exact List.mem_range.mp (hvm.mem_iff.mp (List.getElem_mem hk))
    have hidxof : vm.indexOf (vm.getD (src.natAbs - 1) 0) = src.natAbs - 1 :=
      indexOf_getD_of_nodup vm _ hk hnd
    cases hx : Bool.xor (decide (src < 0))
        (fl.getD (src.natAbs - 1) false) with
    | false =>
      simp only [Bool.false_eq_true, if_false]
      have hnat : ((vm.getD (src.natAbs - 1) 0 : Int) + 1).natAbs - 1
          = vm.getD (src.natAbs - 1) 0 := by omega
      rw [hnat, hidxof]
      have hpos : ¬ ((vm.getD (src.natAbs - 1) 0 : Int) + 1 < 0) := by omega
      rw [decide_eq_false hpos]
      simp only [Bool.false_xor]
      have hbb : fl.getD (src.natAbs - 1) false = decide (src < 0) := by
        revert hx
        cases decide (src < 0) <;> cases fl.getD (src.natAbs - 1) false <;>
          simp
      rw [hbb]
      have hii : src.natAbs - 1 + 1 = src.natAbs := by omega
      rw [hii]
      cases hsb : decide (src < 0) with
      | false =>
        simp only [Bool.false_eq_true, if_false]
        have := of_decide_eq_false hsb
        omega
      | true =>
        simp only [if_true]
        have := of_decide_eq_true hsb
        omega
    | true =>
      simp only [if_true]
      have hnat : (-((vm.getD (src.natAbs - 1) 0 : Int) + 1)).natAbs - 1
          = vm.getD (src.natAbs - 1) 0 := by omega
      rw [hnat, hidxof]
      have hneg : (-((vm.getD (src.natAbs - 1) 0 : Int) + 1) < 0) := by omega
      rw [decide_eq_true hneg]
      simp only [Bool.true_xor]
      have hbb : (! fl.getD (src.natAbs - 1) false) = decide (src < 0) := by
        revert hx
        cases decide (src < 0) <;> cases fl.getD (src.natAbs - 1) false <;>
          simp
      rw [hbb]
      have hii : src.natAbs - 1 + 1 = src.natAbs := by omega
      rw [hii]
      cases hsb : decide (src < 0) with
      | false =>
        simp only [Bool.false_eq_true, if_false]
        have := of_decide_eq_false hsb
        omega
      | true =>
        simp only [if_true]
        have := of_decide_eq_true hsb
        omega
  | true =>
    simp only [specLit, unEmitLit, if_true]
    have hk : maxVar + 1 - src.natAbs - 1 < vm.length := by omega
    have hvlt : vm.getD (maxVar + 1 - src.natAbs - 1) 0 < maxVar := by
      rw [List.getD_eq_getElem _ _ hk]
      exact List.mem_range.mp (hvm.mem_iff.mp (List.getElem_mem hk))
    have hidxof : vm.indexOf (vm.getD (maxVar + 1 - src.natAbs - 1) 0)
        = maxVar + 1 - src.natAbs - 1 := indexOf_getD_of_nodup vm _ hk hnd
    cases hx : Bool.xor (decide (src < 0))
        (fl.getD (maxVar + 1 - src.natAbs - 1) false) with
    | false =>
      simp only [Bool.false_eq_true, if_false]
      have hnat :
          ((vm.getD (maxVar + 1 - src.natAbs - 1) 0 : Int) + 1).natAbs - 1
            = vm.getD (maxVar + 1 - src.natAbs - 1) 0 := by omega
      rw [hnat, hidxof]
      have hpos :
          ¬ ((vm.getD (maxVar + 1 - src.natAbs - 1) 0 : Int) + 1 < 0) := by
        omega
      rw [decide_eq_false hpos]
      simp only [Bool.false_xor]
      have hbb : fl.getD (maxVar + 1 - src.natAbs - 1) false
          = decide (src < 0) := by
        revert hx
        cases decide (src < 0) <;>
          cases fl.getD (maxVar + 1 - src.natAbs - 1) false <;> simp
      rw [hbb]
      have hii : maxVar + 1 - src.natAbs - 1 + 1 = maxVar + 1 - src.natAbs :=
        by omega
      rw [hii]
      have hmm : maxVar + 1 - (maxVar + 1 - src.natAbs) = src.natAbs := by
        omega
      rw [hmm]
      cases hsb : decide (src < 0) with
      | false =>
        simp only [Bool.false_eq_true, if_false]
        have := of_decide_eq_false hsb
        omega
      | true =>
        simp only [if_true]
        have := of_decide_eq_true hsb
        omega
    | true =>
      simp only [if_true]
      have hnat :
          (-((vm.getD (maxVar + 1 - src.natAbs - 1) 0 : Int) + 1)).natAbs - 1
            = vm.getD (maxVar + 1 - src.natAbs - 1) 0 := by omega
      rw [hnat, hidxof]
      have hneg :
          (-((vm.getD (maxVar + 1 - src.natAbs - 1) 0 : Int) + 1) < 0) := by
        omega
      rw [decide_eq_true hneg]
      simp only [Bool.true_xor]
      have hbb : (! fl.getD (maxVar + 1 - src.natAbs - 1) false)
          = decide (src < 0) := by
        revert hx
        cases decide (src < 0) <;>
          cases fl.getD (maxVar + 1 - src.natAbs - 1) false <;> simp
      rw [hbb]
      have hii : maxVar + 1 - src.natAbs - 1 + 1 = maxVar + 1 - src.natAbs :=
        by omega
      rw [hii]
      have hmm : maxVar + 1 - (maxVar + 1 - src.natAbs) = src.natAbs := by
        omega
      rw [hmm]
      cases hsb : decide (src < 0) with
      | false =>
        simp only [Bool.false_eq_true, if_false]
        have := of_decide_eq_false hsb
        omega
      | true =>
        simp only [if_true]
        have := of_decide_eq_true hsb
        omega

/-! ### The clause selection is a bijection on output positions -/

theorem reverse_range_eq_map (m : Nat) :
    (List.range m).reverse = (List.range m).map fun i => m - 1 - i := by
  conv_lhs => rw [List.range_eq_range']
  rw [List.reverse_range']
  simp

theorem getD_range_map (m : Nat) (cm : List Nat)
    (hcm : cm.Perm (List.range m)) :
    ((List.range m).map fun i => cm.getD i 0) = cm := by
  have hlen : cm.length = m := by rw [hcm.length_eq, List.length_range]
  apply List.ext_getElem
  · simp [hlen]
  · intro i h1 h2
    simp only [List.getElem_map, List.getElem_range]
    exact List.getD_eq_getElem _ _ h2

theorem srcIndex_perm (m : Nat) (cm : List Nat) (rc : Bool)
    (hcm : cm.Perm (List.range m)) :
    ((List.range m).map (srcIndex m cm rc)).Perm (List.range m) := by
  have hbase : ((List.range m).map fun i => cm.getD i 0) = cm :=
    getD_range_map m cm hcm
  cases rc with
  | false =>
    have he : (List.range m).map (srcIndex m cm false)
        = (List.range m).map fun i => cm.getD i 0 :=
      List.map_congr_left fun i _ => by simp [srcIndex]
    rw [he, hbase]
    exact hcm
  | true =>
    have he : (List.range m).map (srcIndex m cm true)
        = ((List.range m).map fun i => cm.getD i 0).map fun j => m - 1 - j := by
      rw [List.map_map]
      exact List.map_congr_left fun i _ => by simp [srcIndex, Function.comp]
    rw [he, hbase]
    refine (hcm.map fun j => m - 1 - j).trans ?_
    rw [← reverse_range_eq_map]
    exact List.reverse_perm _

theorem srcIndex_lt (m : Nat) (cm : List Nat) (rc : Bool) (i : Nat)
    (hcm : cm.Perm (List.range m)) (hi : i < m) : srcIndex m cm rc i < m := by
  have hlen : cm.length = m := by rw [hcm.length_eq, List.length_range]
  have hgd : cm.getD i 0 = cm[i] := List.getD_eq_getElem _ _ (by omega)
  have hmem : cm[i] < m :=
    List.mem_range.mp (hcm.mem_iff.mp (List.getElem_mem (by omega)))
  unfold srcIndex
  cases rc <;> simp only [Bool.false_eq_true, if_false, if_true] <;>
    rw [hgd] <;> omega

/-- C1: for every parsed CNF, arbitrary flip set, permutation variable
and clause maps and any flag combination, undoing the variable
permutation, the flip set and the reversal flags on any output clause
recovers exactly the source clause selected for that position, and the
position-to-source-clause assignment is a bijection: the emitter never
invents or drops a literal. -/
theorem claim_C1 (s : String) (cnf : CNF) (vm cm : List Nat)
    (fl : List Bool) (rv rc : Bool) (hp : parse s = .ok cnf)
    (hvm : vm.Perm (List.range cnf.maxVar))
    (hcm : cm.Perm (List.range cnf.clauses.length)) :
    (∀ i, i < cnf.clauses.length →
      unscrambleClause cnf.maxVar vm fl rv
          ((emit cnf vm cm fl rv rc).getD i [])
        = cnf.clauses.getD (srcIndex cnf.clauses.length cm rc i) []) ∧
    ((List.range cnf.clauses.length).map
        (srcIndex cnf.clauses.length cm rc)).Perm
      (List.range cnf.clauses.length) := by
  have hwf := parse_wf s cnf hp
  refine ⟨fun i hi => ?_, srcIndex_perm _ cm rc hcm⟩
  rw [emit_getD cnf vm cm fl rv rc i hi]
  have hj : srcIndex cnf.clauses.length cm rc i < cnf.clauses.length :=
    srcIndex_lt _ cm rc i hcm hi
  have hmem : cnf.clauses.getD (srcIndex cnf.clauses.length cm rc i) []
      ∈ cnf.clauses := by
    rw [List.getD_eq_getElem _ _ hj]
    exact List.getElem_mem hj
  unfold unscrambleClause emitClause
  rw [List.map_map]
  have hid : ∀ l ∈ cnf.clauses.getD (srcIndex cnf.clauses.length cm rc i) [],
      (unEmitLit cnf.maxVar vm fl rv ∘ emitLit cnf.maxVar vm fl rv) l
        = id l := by
    intro l hl
    have hwfl := hwf _ hmem l hl
    exact unEmitLit_emitLit cnf.maxVar vm fl rv l hvm hwfl.1 hwfl.2
  rw [List.map_congr_left hid, List.map_id]

/-- C1 witness: a concrete parsed CNF, concrete permutations and flip
set, both reversal flags on, at output position 0. -/
theorem claim_C1_witness :
    unscrambleClause 2 [1, 0] [true, false] true
        ((emit ⟨2, [[1, -2], [2]]⟩ [1, 0] [1, 0] [true, false] true
          true).getD 0 [])
      = ([[1, -2], [2]] : List (List Int)).getD (srcIndex 2 [1, 0] true 0) []
    ∧ ((List.range 2).map (srcIndex 2 [1, 0] true)).Perm (List.range 2) := by
  have h := claim_C1 "p cnf 2 2\n1 -2 0\n2 0\n" ⟨2, [[1, -2], [2]]⟩ [1, 0]
    [1, 0] [true, false] true true (by rfl) (by decide) (by decide)
  exact ⟨h.1 0 (by decide), h.2⟩

/-! ### Claim C9: every emitter access is in bounds -/

theorem vm_getD_lt (n : Nat) (vm : List Nat) (hvm : vm.Perm (List.range n))
    (k : Nat) (hk : k < n) : vm.getD k 0 < n := by
  have hlen : vm.length = n := by rw [hvm.length_eq, List.length_range]
  rw [List.getD_eq_getElem _ _ (by omega)]
  exact List.mem_range.mp (hvm.mem_iff.mp (List.getElem_mem (by omega)))

/-- C9: for a parsed CNF and maps of matching lengths, the
possibly-reversed clause index is below the clause count, the
possibly-reversed variable index is between 1 and maxVar so both array
lookups are in bounds, and the looked-up new variable is between 1 and
maxVar: all the emitter assertions hold. -/
theorem claim_C9 (s : String) (cnf : CNF) (vm cm : List Nat)
    (fl : List Bool) (rv rc : Bool) (hp : parse s = .ok cnf)
    (hvm : vm.Perm (List.range cnf.maxVar))
    (hcm : cm.Perm (List.range cnf.clauses.length))
    (hfl : fl.length = cnf.maxVar) :
    ∀ i, i < cnf.clauses.length →
      srcIndex cnf.clauses.length cm rc i < cnf.clauses.length ∧
      ∀ src ∈ cnf.clauses.getD (srcIndex cnf.clauses.length cm rc i) [],
        (1 ≤ (if rv then cnf.maxVar + 1 - src.natAbs else src.natAbs) ∧
          (if rv then cnf.maxVar + 1 - src.natAbs else src.natAbs)
            ≤ cnf.maxVar) ∧
        ((if rv then cnf.maxVar + 1 - src.natAbs else src.natAbs) - 1
            < vm.length ∧
          (if rv then cnf.maxVar + 1 - src.natAbs else src.natAbs) - 1
            < fl.length) ∧
        (1 ≤ vm.getD
            ((if rv then cnf.maxVar + 1 - src.natAbs else src.natAbs) - 1) 0
            + 1 ∧
          vm.getD
            ((if rv then cnf.maxVar + 1 - src.natAbs else src.natAbs) - 1) 0
            + 1 ≤ cnf.maxVar) := by
  have hwf := parse_wf s cnf hp
  have hvlen : vm.length = cnf.maxVar := by
    rw [hvm.length_eq, List.length_range]
  intro i hi
  have hj := srcIndex_lt _ cm rc i hcm hi
  refine ⟨hj, fun src hsrc => ?_⟩
  have hmem : cnf.clauses.getD (srcIndex cnf.clauses.length cm rc i) []
      ∈ cnf.clauses := by
    rw [List.getD_eq_getElem _ _ hj]
    exact List.getElem_mem hj
  have hwfl := hwf _ hmem src hsrc
  have h1 : 1 ≤ src.natAbs := Int.natAbs_pos.mpr hwfl.1
  have h2 := hwfl.2
  have hidx : 1 ≤ (if rv then cnf.maxVar + 1 - src.natAbs else src.natAbs) ∧
      (if rv then cnf.maxVar + 1 - src.natAbs else src.natAbs)
        ≤ cnf.maxVar := by
    rcases rv with _ | _ <;>
      simp only [Bool.false_eq_true, if_false, if_true] <;> omega
  have hvm2 := vm_getD_lt cnf.maxVar vm hvm
    ((if rv then cnf.maxVar + 1 - src.natAbs else src.natAbs) - 1)
    (by omega)
  exact ⟨hidx, ⟨by omega, by omega⟩, by omega, by omega⟩

/-- C9 witness: the concrete instance of claim C1, at output position
0, with both reversals on. -/
theorem claim_C9_witness :
    srcIndex 2 [1, 0] true 0 < 2 ∧
    ∀ src ∈ ([[1, -2], [2]] : List (List Int)).getD
        (srcIndex 2 [1, 0] true 0) [],
      (1 ≤ (if true then 2 + 1 - src.natAbs else src.natAbs) ∧
        (if true then 2 + 1 - src.natAbs else src.natAbs) ≤ 2) ∧
      ((if true then 2 + 1 - src.natAbs else src.natAbs) - 1
          < ([1, 0] : List Nat).length ∧
        (if true then 2 + 1 - src.natAbs else src.natAbs) - 1
          < ([true, false] : List Bool).length) ∧
      (1 ≤ ([1, 0] : List Nat).getD
          ((if true then 2 + 1 - src.natAbs else src.natAbs) - 1) 0 + 1 ∧
        ([1, 0] : List Nat).getD
          ((if true then 2 + 1 - src.natAbs else src.natAbs) - 1) 0 + 1
          ≤ 2) :=
  claim_C9 "p cnf 2 2\n1 -2 0\n2 0\n" ⟨2, [[1, -2], [2]]⟩ [1, 0] [1, 0]
    [true, false] true true (by rfl) (by decide) (by decide) rfl 0 (by decide)

/-! ### Claims about the parser: C5, C8, C10 -/

/-- C5: at end of stream with no pending literals and fewer clauses than
declared, the parser raises a hard error, but the count it reports is the
number of clauses read, not the number missing: on an input declaring 3
clauses and supplying 1 it reports 1 while 3 - 1 = 2 clauses are missing
(the plural suffix is nevertheless computed from the missing count, so
the message is the ungrammatical one clauses missing).  On the spec
example declaring 2 and supplying 1 the two numbers coincide. -/
theorem claim_C5 :
    parse "p cnf 1 3\n1 0\n" = .error (.clausesMissing 1 true) ∧
    (3 : Nat) - 1 = 2 ∧
    parse "p cnf 1 2\n1 0\n" = .error (.clausesMissing 1 false) :=
  ⟨rfl, rfl, rfl⟩

/-- C8: the parser never stores a terminating zero inside a clause; a
nonzero literal is always appended unchanged to the pending clause and
the terminating zero stores exactly the pending literals, so no
simplification happens, as the concrete input with duplicate and
complementary literals exhibits. -/
theorem claim_C8 :
    (∀ s cnf, parse s = .ok cnf → ∀ c ∈ cnf.clauses, ∀ l ∈ c, l ≠ 0) ∧
    (∀ (pending : List Int) (cls : List (List Int)) (lit : Int), lit ≠ 0 →
      applyLit pending cls lit = (pending ++ [lit], cls)) ∧
    (∀ (pending : List Int) (cls : List (List Int)),
      applyLit pending cls 0 = ([], cls ++ [pending])) ∧
    parse "p cnf 2 1\n1 1 -1 2 0\n" = .ok ⟨2, [[1, 1, -1, 2]]⟩ := by
  refine ⟨?_, ?_, ?_, rfl⟩
  · intro s cnf h c hc l hl
    exact (parse_wf s cnf h c hc l hl).1
  · intro pending cls lit h0
    simp [applyLit, h0]
  · intro pending cls
    simp [applyLit]

/-- C8 witness: the first conjunct applied to a concretely parsed CNF
and the literal branches of applyLit at concrete arguments. -/
theorem claim_C8_witness :
    ((1 : Int) ≠ 0) ∧
    applyLit [1] [] 5 = ([1, 5], []) ∧
    applyLit [1] [] 0 = ([], [[1]]) :=
  ⟨claim_C8.1 "p cnf 2 1\n1 1 -1 2 0\n" ⟨2, [[1, 1, -1, 2]]⟩ (by rfl)
      [1, 1, -1, 2] (by simp) 1 (by simp),
   claim_C8.2.1 [1] [] 5 (by decide),
   claim_C8.2.2.1 [1] []⟩

/-- C10: a clause block consisting of only the token 0 parses to a clause
with zero literals, a terminating zero on an empty pending list stores
the empty clause, and under every option combination the emitter maps an
empty clause to an empty clause, printed as a line holding only the
terminating zero. -/
theorem claim_C10 :
    parse "p cnf 1 1\n0\n" = .ok ⟨1, [[]]⟩ ∧
    (∀ cls : List (List Int), applyLit [] cls 0 = ([], cls ++ [[]])) ∧
    (∀ (maxVar : Nat) (vm : List Nat) (fl : List Bool) (revVars : Bool),
      emitClause maxVar vm fl revVars [] = []) ∧
    renderClause [] = "0\n" :=
  ⟨rfl, fun _ => rfl, fun _ _ _ _ => rfl, rfl⟩

/-! ### Claim C3: the trivial option combination reproduces the input -/

theorem emitLit_identity (maxVar : Nat) (src : Int) (h0 : src ≠ 0)
    (hb : src.natAbs ≤ maxVar) :
    emitLit maxVar (List.range maxVar) (List.replicate maxVar false) false src
      = src := by
  simp only [emitLit, Bool.false_eq_true, if_false]
  have h1 : 1 ≤ src.natAbs := Int.natAbs_pos.mpr h0
  have hk : src.natAbs - 1 < maxVar := by omega
  have hg : (List.range maxVar).getD (src.natAbs - 1) 0 = src.natAbs - 1 := by
    rw [List.getD_eq_getElem _ _ (by simpa using hk), List.getElem_range]
  have hf : (List.replicate maxVar false).getD (src.natAbs - 1) false
      = false := by
    rw [List.getD_eq_getElem _ _ (by simpa using hk)]
    exact List.getElem_replicate false _
  rw [hg, hf]
  simp only [Bool.false_eq_true, if_false]
  have hc : ((src.natAbs - 1 : Nat) : Int) + 1 = (src.natAbs : Int) := by
    omega
  rw [hc]
  by_cases hs : src < 0
  · rw [if_pos hs]
    omega
  · rw [if_neg hs]
    omega

theorem emit_identity (cnf : CNF) (hwf : WellFormed cnf) :
    emit cnf (List.range cnf.maxVar) (List.range cnf.clauses.length)
      (List.replicate cnf.maxVar false) false false = cnf.clauses := by
  apply List.ext_getElem
  · simp [emit]
  · intro i h1 h2
    have hi : i < cnf.clauses.length := h2
    have hlen : ((List.range cnf.clauses.length).map fun j =>
        emitClause cnf.maxVar (List.range cnf.maxVar)
          (List.replicate cnf.maxVar false) false
          (cnf.clauses.getD
            (srcIndex cnf.clauses.length (List.range cnf.clauses.length)
              false j) [])).length = cnf.clauses.length := by simp
    show (emit cnf (List.range cnf.maxVar) (List.range cnf.clauses.length)
        (List.replicate cnf.maxVar false) false false)[i] = cnf.clauses[i]
    unfold emit
    rw [List.getElem_map, List.getElem_range]
    have hsrc : srcIndex cnf.clauses.length (List.range cnf.clauses.length)
        false i = i := by
      unfold srcIndex
      simp only [Bool.false_eq_true, if_false]
      rw [List.getD_eq_getElem _ _ (by simpa using hi), List.getElem_range]
    rw [hsrc, List.getD_eq_getElem _ _ hi]
    have hmem : cnf.clauses[i] ∈ cnf.clauses := List.getElem_mem hi
    unfold emitClause
    have hid : ∀ l ∈ cnf.clauses[i],
        emitLit cnf.maxVar (List.range cnf.maxVar)
          (List.replicate cnf.maxVar false) false l = id l := by
      intro l hl
      have hwfl := hwf _ hmem l hl
      exact emitLit_identity cnf.maxVar l hwfl.1 hwfl.2
    rw [List.map_congr_left hid, List.map_id]

/-- C3: with flip probability 0, both move windows 0, both reversal flags
off and non-permutation mode, the scramble maps are the identity (the
width 0 windowed rank is the identity permutation for every count and
every seed, since every key equals its index and ties break by index),
the flip set is all false, and the emitted CNF is exactly the input: same
maximum variable, same clause count, same clause order, same literal
order. -/
theorem claim_C3 (cnf : CNF) (seedval rngIn : Nat) (absolute : Bool)
    (hwf : WellFormed cnf) :
    (∀ n : Nat, (rank rngIn seedval n false 0 absolute).1 = List.range n) ∧
    scramble cnf ⟨seedval, false, false, false, false, 0, 0, 0, absolute⟩
        rngIn
      = (List.range cnf.maxVar, List.range cnf.clauses.length,
          List.replicate cnf.maxVar false) ∧
    emit cnf (List.range cnf.maxVar) (List.range cnf.clauses.length)
        (List.replicate cnf.maxVar false) false false = cnf.clauses ∧
    printCNF cnf ⟨seedval, false, false, false, false, 0, 0, 0, absolute⟩
        rngIn
      = "p cnf " ++ toString cnf.maxVar ++ " "
        ++ toString cnf.clauses.length ++ "\n"
        ++ String.join (cnf.clauses.map renderClause) := by
  have hrank : ∀ (n rng2 : Nat),
      (rank rng2 seedval n false 0 absolute).1 = List.range n :=
    fun n rng2 => rank_width_zero rng2 seedval n absolute
  have hflip : ∀ rng2 : Nat,
      (flip rng2 seedval cnf.maxVar 0).1
        = List.replicate cnf.maxVar false := by
    intro rng2
    simp [flip]
  have hscr : scramble cnf
      ⟨seedval, false, false, false, false, 0, 0, 0, absolute⟩ rngIn
      = (List.range cnf.maxVar, List.range cnf.clauses.length,
          List.replicate cnf.maxVar false) := by
    unfold scramble
    dsimp only
    rw [hrank, hrank, hflip]
  have hemit := emit_identity cnf hwf
  refine ⟨fun n => hrank n rngIn, hscr, hemit, ?_⟩
  unfold printCNF
  rw [hscr]
  dsimp only
  rw [hemit]

/-- C3 witness: a concrete two-clause CNF with seed 0. -/
theorem claim_C3_witness :
    (rank 0 0 2 false 0 false).1 = List.range 2 ∧
    scramble ⟨2, [[1, -2], [2]]⟩ ⟨0, false, false, false, false, 0, 0, 0,
        false⟩ 0
      = (List.range 2, List.range 2, List.replicate 2 false) ∧
    emit ⟨2, [[1, -2], [2]]⟩ (List.range 2) (List.range 2)
        (List.replicate 2 false) false false = [[1, -2], [2]] ∧
    printCNF ⟨2, [[1, -2], [2]]⟩ ⟨0, false, false, false, false, 0, 0, 0,
        false⟩ 0
      = "p cnf " ++ toString (2 : Nat) ++ " " ++ toString (2 : Nat) ++ "\n"
        ++ String.join (([[1, -2], [2]] : List (List Int)).map
            renderClause) := by
  have h := claim_C3 ⟨2, [[1, -2], [2]]⟩ 0 0 false (by decide)
  exact ⟨h.1 2, h.2.1, h.2.2.1, h.2.2.2⟩

end Scranfilize
